import Mathlib

/-!
Shallow embedding of `bench_core.py`, the core of a minimal asyncio HTTP
benchmark client, together with proofs about the claims made by its
specification.

Modelling conventions:
* Python `float` values (latencies, quantiles, throughputs) are modelled as
  rationals (`ℚ`); the arithmetic is exact where the Python code uses binary
  floating point.
* Fallible code is modelled with `Option`/`Except`.
* The cooperative scheduler of the open-loop dispatch path is modelled as an
  explicit transition system further below.
-/

/-- Python `int(x)` applied to a number: truncation toward zero. -/
def pyInt (x : ℚ) : ℤ := if 0 ≤ x then ⌊x⌋ else ⌈x⌉

/-- Python `sorted` on a list of numbers: ascending (stable) sort. -/
def pySorted (l : List ℚ) : List ℚ := l.insertionSort (· ≤ ·)

/-- `percentile` from `bench_core.py` (lines 51-64).  It receives an already
ascending list; it returns `0.0` for the empty list and otherwise the element
at index `max(0, min(int(q * (n - 1) + 0.5), n - 1))`. -/
def percentile (sorted_values : List ℚ) (q : ℚ) : ℚ :=
  if sorted_values = [] then 0
  else
    let n : ℕ := sorted_values.length
    let index : ℤ := max 0 (min (pyInt (q * ((n : ℚ) - 1) + 1/2)) ((n : ℤ) - 1))
    sorted_values.getD index.toNat 0

/-- The specification's percentile (spec §4.3), written from its words: sort
ascending, take the value at index `round(q * (n - 1))` clamped to
`[0, n - 1]` (nearest-rank, not interpolated); `round` is round-half-up,
`Mathlib`'s `round`.  Empty input gives 0. -/
def percentileSpec (values : List ℚ) (q : ℚ) : ℚ :=
  if values = [] then 0
  else
    let s := pySorted values
    let n : ℕ := values.length
    let index : ℤ := min (max (round (q * ((n : ℚ) - 1))) 0) ((n : ℤ) - 1)
    s.getD index.toNat 0

/-- `median` from `bench_core.py` (lines 67-73): `0.0` on the empty list,
otherwise middle of the sorted list (odd length) or `0.5 * (a + b)` of the
two middles (even length). -/
def median (values : List ℚ) : ℚ :=
  if values = [] then 0
  else
    let s := pySorted values
    let middle := s.length / 2
    if s.length % 2 = 1 then s.getD middle 0
    else (1/2) * (s.getD (middle - 1) 0 + s.getD middle 0)

/-- The latency statistics record built by `_summarize_latencies`. -/
structure LatencyStats where
  successful_requests : ℕ
  p50_ms : ℚ
  p90_ms : ℚ
  p99_ms : ℚ
  min_ms : ℚ
  avg_ms : ℚ
  max_ms : ℚ
deriving DecidableEq, Repr

/-- `_summarize_latencies` from `bench_core.py` (lines 76-87): sorts the
latency list and produces the per-run percentile fields in milliseconds;
every field is zero when there are no successes. -/
def summarizeLatencies (latencies : List ℚ) : LatencyStats :=
  let s := pySorted latencies
  let n := s.length
  { successful_requests := n
    p50_ms := if n ≠ 0 then percentile s (1/2) * 1000 else 0
    p90_ms := if n ≠ 0 then percentile s (9/10) * 1000 else 0
    p99_ms := if n ≠ 0 then percentile s (99/100) * 1000 else 0
    min_ms := if n ≠ 0 then s.getD 0 0 * 1000 else 0
    avg_ms := if n ≠ 0 then (s.sum / (n : ℚ)) * 1000 else 0
    max_ms := if n ≠ 0 then s.getD (n - 1) 0 * 1000 else 0 }

theorem pySorted_length (l : List ℚ) : (pySorted l).length = l.length :=
  (List.perm_insertionSort _ l).length_eq

theorem pySorted_eq_nil_iff (l : List ℚ) : pySorted l = [] ↔ l = [] := by
  constructor
  · intro h
    have := pySorted_length l
    rw [h] at this
    exact List.length_eq_zero.mp this.symm
  · intro h
    subst h
    rfl

/-- The truncating index computation of `percentile` agrees with the
round-half-up index of the spec once both are clamped to `[0, m]`. -/
theorem clamp_pyInt_eq_clamp_round (x : ℚ) (m : ℤ) (hm : 0 ≤ m) :
    max 0 (min (pyInt (x + 1/2)) m) = min (max (round x) 0) m := by
  rw [round_eq]
  unfold pyInt
  split
  · rename_i h
    have h0 : (0 : ℤ) ≤ ⌊x + 1/2⌋ := Int.floor_nonneg.mpr h
    omega
  · rename_i h
    have hx : x + 1/2 ≤ 0 := le_of_not_le h
    have h1 : ⌈x + 1/2⌉ ≤ 0 := Int.ceil_le.mpr (by exact_mod_cast hx)
    have h2 : ⌊x + 1/2⌋ ≤ ⌈x + 1/2⌉ := Int.floor_le_ceil _
    omega

/-- **C1.** The percentile pipeline sorts ascending and returns the value at
index `round(q × (n − 1))` clamped to `[0, n − 1]` (nearest-rank); it
returns 0 for the empty list for every `q`; and a run with zero successes
has every summary field equal to zero. -/
theorem C1_percentile_nearest_rank (values : List ℚ) (q : ℚ) :
    percentile (pySorted values) q = percentileSpec values q ∧
    percentile [] q = 0 ∧
    summarizeLatencies [] =
      { successful_requests := 0, p50_ms := 0, p90_ms := 0, p99_ms := 0,
        min_ms := 0, avg_ms := 0, max_ms := 0 } := by
  refine ⟨?_, by simp [percentile], by rfl⟩
  by_cases hv : values = []
  · subst hv
    simp [percentile, percentileSpec, pySorted]
  · have hlen : (pySorted values).length = values.length := pySorted_length values
    have hs : pySorted values ≠ [] := fun h => hv ((pySorted_eq_nil_iff values).mp h)
    have hm : (0 : ℤ) ≤ (values.length : ℤ) - 1 := by
      have : values.length ≠ 0 := fun h => hv (List.length_eq_zero.mp h)
      omega
    simp only [percentile, percentileSpec, if_neg hs, if_neg hv, hlen]
    rw [clamp_pyInt_eq_clamp_round (q * ((values.length : ℚ) - 1)) _ hm]

/-- **C5.** For every non-empty list of per-run values, `median` equals the
middle element of an ascending sorted permutation when the length is odd and
the average of the two middle elements when the length is even. -/
theorem C5_median_sorted_rule (values s : List ℚ)
    (hp : s.Perm values) (hs : s.Sorted (· ≤ ·)) (hne : values ≠ []) :
    median values =
      if s.length % 2 = 1 then s.getD (s.length / 2) 0
      else (s.getD (s.length / 2 - 1) 0 + s.getD (s.length / 2) 0) / 2 := by
  have hsort : pySorted values = s :=
    List.eq_of_perm_of_sorted ((List.perm_insertionSort _ values).trans hp.symm)
      (List.sorted_insertionSort _ values) hs
  simp only [median, if_neg hne, hsort]
  split
  · rfl
  · ring

/-- Concrete instance of `C5_median_sorted_rule`: the median of `[3, 1, 2]`
is the middle element of its sorted permutation `[1, 2, 3]`. -/
theorem C5_median_sorted_rule_witness :
    median [(3 : ℚ), 1, 2] =
      if ([(1 : ℚ), 2, 3] : List ℚ).length % 2 = 1
      then ([(1 : ℚ), 2, 3] : List ℚ).getD (([(1 : ℚ), 2, 3] : List ℚ).length / 2) 0
      else (([(1 : ℚ), 2, 3] : List ℚ).getD (([(1 : ℚ), 2, 3] : List ℚ).length / 2 - 1) 0 +
            ([(1 : ℚ), 2, 3] : List ℚ).getD (([(1 : ℚ), 2, 3] : List ℚ).length / 2) 0) / 2 :=
  C5_median_sorted_rule [3, 1, 2] [1, 2, 3] (by decide) (by decide) (by decide)

/-- Result of one `one_request` call.  `hang` marks an execution in which an
`await` with no timeout guard never completes, so the coroutine blocks
indefinitely instead of returning. -/
inductive ReqResult where
  | success (latency : ℚ)
  | failure
  | hang
deriving DecidableEq, Repr

/-- Timing environment for one `one_request` call: how long each awaited
operation takes to complete, `none` meaning it never completes.  `readDurs`
are the read calls that return non-empty chunks; `eofReadDur` is the final
read call that observes EOF; `closeDur` is `writer.wait_closed()`.
(Operations that raise an exception immediately are not distinguished from
the timeout path they share; the claims settled with this model concern
completion times only.) -/
structure RequestTrace where
  connectDur : Option ℚ
  drainDur : Option ℚ
  readDurs : List (Option ℚ)
  eofReadDur : Option ℚ
  closeDur : Option ℚ
deriving DecidableEq, Repr

/-- `asyncio.wait_for(op, timeout)`: yields the elapsed time if the
operation finishes within the timeout, otherwise raises `TimeoutError`
(modelled as `none`). -/
def waitFor (timeout : ℚ) (d : Option ℚ) : Option ℚ :=
  match d with
  | none => none
  | some t => if timeout < t then none else some t

/-- The read loop of `one_request`: every `reader.read` call is wrapped in
`asyncio.wait_for`; the loop yields the total read time, or `none` when one
of the reads timed out. -/
def readLoop (timeout : ℚ) : List (Option ℚ) → Option ℚ
  | [] => some 0
  | d :: rest =>
    match waitFor timeout d with
    | none => none
    | some t => (readLoop timeout rest).map (t + ·)

/-- `one_request` from `bench_core.py` (lines 29-48).  The connection call
(`asyncio.open_connection`) and every read are wrapped in
`asyncio.wait_for`; `writer.drain()` and `writer.wait_closed()` are awaited
with no timeout guard, so when they never complete the coroutine hangs.
All raised exceptions resolve to `failure` (-1.0 in the source). -/
def one_request (timeout : ℚ) (tr : RequestTrace) : ReqResult :=
  match waitFor timeout tr.connectDur with
  | none => .failure
  | some ct =>
    match tr.drainDur with
    | none => .hang
    | some dt =>
      match readLoop timeout (tr.readDurs ++ [tr.eofReadDur]) with
      | none => .failure
      | some rt =>
        match tr.closeDur with
        | none => .hang
        | some wt => .success (ct + dt + rt + wt)

theorem readLoop_eq_none (timeout : ℚ) (l : List (Option ℚ))
    (h : ∃ d ∈ l, waitFor timeout d = none) : readLoop timeout l = none := by
  induction l with
  | nil => simp at h
  | cons x xs ih =>
    rcases h with ⟨d, hd, hw⟩
    rcases List.mem_cons.mp hd with rfl | hd'
    · simp [readLoop, hw]
    · unfold readLoop
      cases hwx : waitFor timeout x with
      | none => rfl
      | some t => rw [ih ⟨d, hd', hw⟩]; rfl

/-- **C2 counterexample.** A request whose connection and reads are instant
but whose write completion (`writer.drain()`) never finishes: the
per-request timeout is not applied to the write suspension point, and
`one_request` blocks indefinitely instead of yielding `Failure`. -/
theorem C2_counterexample :
    one_request 5 ⟨some 0, none, [], some 0, some 0⟩ = .hang ∧
    ReqResult.hang ≠ ReqResult.failure := by
  exact ⟨rfl, by decide⟩

/-- **C2 amended.** The per-request timeout is applied independently to
connection establishment and to each read call, and exceeding it at either
of those two suspension points yields `Failure`; write completion
(`writer.drain()`) is awaited without a timeout guard. -/
theorem C2_timeout_connect_and_reads (timeout : ℚ) (tr : RequestTrace) :
    ((tr.connectDur = none ∨ ∃ t, tr.connectDur = some t ∧ timeout < t) →
      one_request timeout tr = .failure) ∧
    (∀ dt, tr.drainDur = some dt →
      (∃ d ∈ tr.readDurs ++ [tr.eofReadDur], waitFor timeout d = none) →
      one_request timeout tr = .failure) := by
  constructor
  · intro h
    have hc : waitFor timeout tr.connectDur = none := by
      rcases h with h | ⟨t, ht, htt⟩
      · rw [h]; rfl
      · rw [ht]; simp [waitFor, htt]
    unfold one_request
    rw [hc]
  · intro dt hdt hread
    unfold one_request
    cases hc : waitFor timeout tr.connectDur with
    | none => rfl
    | some ct =>
      rw [hdt, readLoop_eq_none timeout _ hread]

/-- Concrete instances of `C2_timeout_connect_and_reads`: a connection
slower than the timeout fails, and a read slower than the timeout fails. -/
theorem C2_timeout_connect_and_reads_witness :
    one_request 5 ⟨some 10, some 0, [], some 0, some 0⟩ = .failure ∧
    one_request 5 ⟨some 1, some 0, [some 99], some 0, some 0⟩ = .failure :=
  ⟨(C2_timeout_connect_and_reads 5 ⟨some 10, some 0, [], some 0, some 0⟩).1
      (Or.inr ⟨10, rfl, by norm_num⟩),
   (C2_timeout_connect_and_reads 5 ⟨some 1, some 0, [some 99], some 0, some 0⟩).2 0 rfl
      ⟨some 99, by decide, by decide⟩⟩

/-- One step of the outcome accumulation in the request worker of
`_closed_once` (`perform_request`): an error increments the error counter,
a success appends its latency. -/
def tallyStep (acc : List ℚ × ℕ) (duration : ℚ) : List ℚ × ℕ :=
  if duration < 0 then (acc.1, acc.2 + 1) else (acc.1 ++ [duration], acc.2)

/-- The outcome accumulation of `_closed_once` (`bench_core.py` lines
119-144): `total` requests are dispatched, request `i`'s `one_request` call
returning the value `result i` (`-1.0` marks an error); each request
appends exactly one latency or increments the error counter once, and
`asyncio.gather` collects all of them before the summary is built.  The
cooperative interleaving of the workers cannot change the tallies, so they
are folded in dispatch order. -/
def closedOnceTally (result : ℕ → ℚ) (total : ℕ) : List ℚ × ℕ :=
  (List.range total).foldl (fun acc i => tallyStep acc (result i)) ([], 0)

/-- `_closed_once`'s returned summary pieces: the latency statistics over
the collected latencies, plus the error count. -/
def closedOnce (result : ℕ → ℚ) (total : ℕ) : LatencyStats × ℕ :=
  let t := closedOnceTally result total
  (summarizeLatencies t.1, t.2)

theorem tally_foldl_length (result : ℕ → ℚ) (l : List ℕ) (acc : List ℚ × ℕ) :
    (l.foldl (fun acc i => tallyStep acc (result i)) acc).1.length +
      (l.foldl (fun acc i => tallyStep acc (result i)) acc).2 =
    acc.1.length + acc.2 + l.length := by
  induction l generalizing acc with
  | nil => simp
  | cons x xs ih =>
    simp only [List.foldl_cons, List.length_cons]
    rw [ih]
    by_cases h : result x < 0 <;> simp [tallyStep, h] <;> omega

/-- **C6.** For every closed-loop single run over `total` requests, the
success count of the computed summary plus the failure count equals exactly
`total`: each dispatched request contributes exactly one outcome before the
summary is computed. -/
theorem C6_closed_loop_conservation (result : ℕ → ℚ) (total : ℕ) :
    (closedOnce result total).1.successful_requests + (closedOnce result total).2 = total := by
  have h := tally_foldl_length result (List.range total) ([], 0)
  simp only [List.length_nil, List.length_range, Nat.zero_add] at h
  simp only [closedOnce, closedOnceTally, summarizeLatencies]
  simpa [pySorted_length] using h

/-- The numeric fields of one run's summary dictionary that the repeat
aggregation of `run_closed` / `run_open` reads. -/
structure RunStats where
  throughput : ℚ
  p50_ms : ℚ
  p90_ms : ℚ
  p99_ms : ℚ
  errors : ℚ
deriving DecidableEq, Repr

/-- The repeat aggregation of `run_closed` (`bench_core.py` lines 147-169):
the runner performs `repeatCount` measured runs (run `i` producing
`runResult i`; the network behaviour behind each run is abstracted into
this oracle, and the optional warmup run is discarded without affecting the
returned value) and returns the median of each numeric field together with
`sum(errors) / max(repeat, 1)`. -/
def run_closed (runResult : ℕ → RunStats) (repeatCount : ℕ) : RunStats :=
  let runs := (List.range repeatCount).map runResult
  { throughput := median (runs.map (·.throughput))
    p50_ms := median (runs.map (·.p50_ms))
    p90_ms := median (runs.map (·.p90_ms))
    p99_ms := median (runs.map (·.p99_ms))
    errors := (runs.map (·.errors)).sum / ((max repeatCount 1 : ℕ) : ℚ) }

/-- The repeat aggregation of `run_open` (`bench_core.py` lines 218-238),
identical in shape to the closed-loop one. -/
def run_open (runResult : ℕ → RunStats) (repeatCount : ℕ) : RunStats :=
  let runs := (List.range repeatCount).map runResult
  { throughput := median (runs.map (·.throughput))
    p50_ms := median (runs.map (·.p50_ms))
    p90_ms := median (runs.map (·.p90_ms))
    p99_ms := median (runs.map (·.p99_ms))
    errors := (runs.map (·.errors)).sum / ((max repeatCount 1 : ℕ) : ℚ) }

/-- The all-zero run summary. -/
def zeroRunStats : RunStats := ⟨0, 0, 0, 0, 0⟩

/-- A per-run oracle for which every run has positive throughput. -/
def busyRun : ℕ → RunStats := fun _ => ⟨100, 1, 2, 3, 4⟩

/-- **C4 counterexample.** Called with `repeat = 0`, both runners do return
a result, and it is exactly the zero-valued summary: no validation rejects
`repeat = 0`. -/
theorem C4_counterexample :
    run_closed busyRun 0 = zeroRunStats ∧ run_open busyRun 0 = zeroRunStats := by
  constructor <;> · simp [run_closed, run_open, zeroRunStats, median]

/-- **C4 amended.** A repeat count of 0 is not rejected: both repeated
runners perform no measured runs and return the all-zero summary (median of
an empty list is 0 and `sum([]) / max(0, 1) = 0`). -/
theorem C4_repeat_zero_returns_zeros (runResult : ℕ → RunStats) :
    run_closed runResult 0 = zeroRunStats ∧ run_open runResult 0 = zeroRunStats := by
  constructor <;> · simp [run_closed, run_open, zeroRunStats, median]

/-- The running-maximum fold inside Python's
`max(results, key=lambda x: x[1]["throughput"])`: the running best is
replaced only on a strictly larger key, so the first maximal element wins. -/
def pyMaxFold (x : ℕ × ℚ) (xs : List (ℕ × ℚ)) : ℕ × ℚ :=
  xs.foldl (fun best y => if best.2 < y.2 then y else best) x

/-- Python's `max(results, key=...)` over the sweep results, `none` on the
empty list (where Python raises `ValueError`). -/
def pyMaxByThroughput (l : List (ℕ × ℚ)) : Option (ℕ × ℚ) :=
  match l with
  | [] => none
  | x :: xs => some (pyMaxFold x xs)

/-- The open-loop plan derived by `run_preset` (`bench_core.py` lines
369-378) from the sweep results. -/
structure PresetPlan where
  best_concurrency : ℕ
  calibrated_rps : ℚ
  open_targets_rps : List ℚ
  concurrency_cap : ℕ
deriving DecidableEq, Repr

/-- The calibration step of `run_preset` (`bench_core.py` lines 369-378):
pick the best sweep point by median throughput and derive the three
open-loop target rates and the concurrency cap `min(int(2.5 * c), 2000)`.
`none` when the sweep produced no results (`max` of an empty sequence
raises). -/
def run_preset_calibration (results : List (ℕ × ℚ)) : Option PresetPlan :=
  (pyMaxByThroughput results).map fun best =>
    { best_concurrency := best.1
      calibrated_rps := best.2
      open_targets_rps :=
        [max 50 (1/2 * best.2), max 50 (9/10 * best.2), max 50 (11/10 * best.2)]
      concurrency_cap := min (pyInt (5/2 * (best.1 : ℚ))).toNat 2000 }

theorem pyMaxFold_spec (xs : List (ℕ × ℚ)) (x : ℕ × ℚ) :
    ∃ pre post,
      x :: xs = pre ++ pyMaxFold x xs :: post ∧
      (∀ y ∈ pre, y.2 < (pyMaxFold x xs).2) ∧
      (∀ y ∈ x :: xs, y.2 ≤ (pyMaxFold x xs).2) := by
  induction xs generalizing x with
  | nil =>
    exact ⟨[], [], rfl, by simp, by simp [pyMaxFold]⟩
  | cons y ys ih =>
    have hstep : pyMaxFold x (y :: ys) = pyMaxFold (if x.2 < y.2 then y else x) ys := rfl
    by_cases h : x.2 < y.2
    · rw [hstep, if_pos h]
      rcases ih y with ⟨pre, post, hsplit, hpre, hmax⟩
      have hyb : y.2 ≤ (pyMaxFold y ys).2 := hmax y (List.mem_cons_self y ys)
      refine ⟨x :: pre, post, ?_, ?_, ?_⟩
      · rw [List.cons_append, ← hsplit]
      · intro z hz
        rcases List.mem_cons.mp hz with rfl | hz'
        · exact lt_of_lt_of_le h hyb
        · exact hpre z hz'
      · intro z hz
        rcases List.mem_cons.mp hz with rfl | hz'
        · exact le_of_lt (lt_of_lt_of_le h hyb)
        · exact hmax z hz'
    · rw [hstep, if_neg h]
      push_neg at h
      rcases ih x with ⟨pre, post, hsplit, hpre, hmax⟩
      have hxb : x.2 ≤ (pyMaxFold x ys).2 := hmax x (List.mem_cons_self x ys)
      cases pre with
      | nil =>
        simp only [List.nil_append] at hsplit
        injection hsplit with h1 h2
        refine ⟨[], y :: ys, ?_, by simp, ?_⟩
        · rw [List.nil_append, ← h1]
        · intro z hz
          rcases List.mem_cons.mp hz with rfl | hz'
          · exact hxb
          · rcases List.mem_cons.mp hz' with rfl | hz''
            · exact h.trans hxb
            · exact hmax z (List.mem_cons_of_mem x hz'')
      | cons p pre' =>
        rw [List.cons_append] at hsplit
        injection hsplit with h1 h2
        rw [← h1] at hpre
        have hxlt : x.2 < (pyMaxFold x ys).2 := hpre x (List.mem_cons_self x pre')
        refine ⟨x :: y :: pre', post, ?_, ?_, ?_⟩
        · rw [List.cons_append, List.cons_append, ← h2]
        · intro z hz
          rcases List.mem_cons.mp hz with rfl | hz'
          · exact hxlt
          · rcases List.mem_cons.mp hz' with rfl | hz''
            · exact lt_of_le_of_lt h hxlt
            · exact hpre z (List.mem_cons_of_mem x hz'')
        · intro z hz
          rcases List.mem_cons.mp hz with rfl | hz'
          · exact hxb
          · rcases List.mem_cons.mp hz' with rfl | hz''
            · exact h.trans hxb
            · exact hmax z (List.mem_cons_of_mem x hz'')

/-- For a natural `c`, Python's `int(2.5 * c)` is `⌊5c/2⌋` = natural
division `5 * c / 2`. -/
theorem pyInt_five_halves (c : ℕ) : (pyInt (5/2 * (c : ℚ))).toNat = 5 * c / 2 := by
  have h0 : (0 : ℚ) ≤ 5/2 * c := by positivity
  rw [pyInt, if_pos h0]
  have hcast : (5/2 * (c : ℚ)) = ((5 * c : ℕ) : ℚ) / ((2 : ℕ) : ℚ) := by
    push_cast
    ring
  rw [hcast, Int.floor_toNat, Nat.floor_div_nat, Nat.floor_natCast]

/-- **C3 counterexample.** For the single sweep point `(concurrency 5,
throughput 100)`, the concurrency cap computed by `run_preset` is
`min(int(2.5 * 5), 2000) = 12`, while the claim's `min(2.5 × 5, 2000)` is
`12.5`: the truncation by `int(...)` is part of the cap. -/
theorem C3_counterexample :
    (run_preset_calibration [(5, 100)]).map PresetPlan.concurrency_cap = some 12 ∧
    ((12 : ℚ) ≠ min (5/2 * (5 : ℚ)) 2000) := by
  constructor
  · show some (min (pyInt ((5 : ℚ)/2 * ((5 : ℕ) : ℚ))).toNat 2000) = some 12
    have hp : pyInt ((5 : ℚ)/2 * ((5 : ℕ) : ℚ)) = 12 := by
      unfold pyInt
      rw [if_pos (by norm_num), Int.floor_eq_iff]
      constructor <;> norm_num
    rw [hp]
    exact congrArg some (by omega)
  · rw [min_eq_left (by norm_num : (5 : ℚ)/2 * 5 ≤ 2000)]
    norm_num

/-- **C3 amended.** `best` is the sweep point with maximal median
throughput, ties broken by the first-encountered point; the derived
open-loop target rates are exactly `max(50, 0.5×T)`, `max(50, 0.9×T)`,
`max(50, 1.1×T)` for `T` the calibrated throughput (so every target is
≥ 50); and the concurrency cap equals `min(⌊2.5 × best.concurrency⌋, 2000)`
(the product is truncated by `int(...)` before the `min`). -/
theorem C3_preset_calibration (results : List (ℕ × ℚ)) (plan : PresetPlan)
    (h : run_preset_calibration results = some plan) :
    (∃ pre post,
        results = pre ++ (plan.best_concurrency, plan.calibrated_rps) :: post ∧
        ∀ y ∈ pre, y.2 < plan.calibrated_rps) ∧
    (∀ y ∈ results, y.2 ≤ plan.calibrated_rps) ∧
    plan.open_targets_rps =
      [max 50 (1/2 * plan.calibrated_rps), max 50 (9/10 * plan.calibrated_rps),
       max 50 (11/10 * plan.calibrated_rps)] ∧
    (∀ t ∈ plan.open_targets_rps, 50 ≤ t) ∧
    plan.concurrency_cap = min (5 * plan.best_concurrency / 2) 2000 := by
  cases results with
  | nil => simp [run_preset_calibration, pyMaxByThroughput] at h
  | cons x xs =>
    have hred : run_preset_calibration (x :: xs) = some
        { best_concurrency := (pyMaxFold x xs).1
          calibrated_rps := (pyMaxFold x xs).2
          open_targets_rps := [max 50 (1/2 * (pyMaxFold x xs).2),
            max 50 (9/10 * (pyMaxFold x xs).2), max 50 (11/10 * (pyMaxFold x xs).2)]
          concurrency_cap := min (pyInt (5/2 * ((pyMaxFold x xs).1 : ℚ))).toNat 2000 } := rfl
    rw [hred, Option.some.injEq] at h
    subst h
    rcases pyMaxFold_spec xs x with ⟨pre, post, hsplit, hpre, hmax⟩
    refine ⟨⟨pre, post, ?_, hpre⟩, hmax, rfl, ?_, ?_⟩
    · simpa using hsplit
    · intro t ht
      simp only [List.mem_cons, List.not_mem_nil, or_false] at ht
      rcases ht with rfl | rfl | rfl <;> exact le_max_left _ _
    · exact congrArg (fun k => min k 2000) (pyInt_five_halves _)

/-- The plan computed for the one-point sweep `[(4, 100)]`. -/
def presetPlanExample : PresetPlan :=
  { best_concurrency := (pyMaxFold (4, 100) []).1
    calibrated_rps := (pyMaxFold (4, 100) []).2
    open_targets_rps := [max 50 (1/2 * (pyMaxFold (4, 100) []).2),
      max 50 (9/10 * (pyMaxFold (4, 100) []).2), max 50 (11/10 * (pyMaxFold (4, 100) []).2)]
    concurrency_cap := min (pyInt (5/2 * (((pyMaxFold (4, 100) []).1 : ℕ) : ℚ))).toNat 2000 }

/-- Concrete instance of `C3_preset_calibration` on the one-point sweep
`[(4, 100)]`. -/
theorem C3_preset_calibration_witness :
    (∃ pre post,
        [((4 : ℕ), (100 : ℚ))] =
          pre ++ (presetPlanExample.best_concurrency, presetPlanExample.calibrated_rps) :: post ∧
        ∀ y ∈ pre, y.2 < presetPlanExample.calibrated_rps) ∧
    (∀ y ∈ [((4 : ℕ), (100 : ℚ))], y.2 ≤ presetPlanExample.calibrated_rps) ∧
    presetPlanExample.open_targets_rps =
      [max 50 (1/2 * presetPlanExample.calibrated_rps),
       max 50 (9/10 * presetPlanExample.calibrated_rps),
       max 50 (11/10 * presetPlanExample.calibrated_rps)] ∧
    (∀ t ∈ presetPlanExample.open_targets_rps, 50 ≤ t) ∧
    presetPlanExample.concurrency_cap =
      min (5 * presetPlanExample.best_concurrency / 2) 2000 :=
  C3_preset_calibration [(4, 100)] presetPlanExample rfl

/-- Scheduler-level state of one `_open_once` run (`bench_core.py` lines
174-215).  A dispatched task (member of `in_flight_tasks`) is either
waiting on the concurrency semaphore or executing `one_request` while
holding it; `semAvail` is the semaphore counter; `loopDone` records that the
duration elapsed and the dispatch loop exited; `summarized` records that
`asyncio.gather` returned and the summary was computed. -/
structure OpenLoopState where
  loopDone : Bool
  waiting : ℕ
  executing : ℕ
  semAvail : ℕ
  summarized : Bool
deriving DecidableEq, Repr

/-- Dispatched-but-not-completed tasks: the size of `in_flight_tasks`. -/
def OpenLoopState.outstanding (s : OpenLoopState) : ℕ := s.waiting + s.executing

/-- The transitions of `_open_once`, for a concurrency cap `cap`:
* `dispatch` — the loop body creates a task, guarded by
  `len(in_flight_tasks) < 4 * concurrency_cap` (line 198);
* `acquire` — a waiting task enters `async with concurrency_semaphore`;
* `finish` — an executing task completes `one_request`, records its outcome,
  releases the semaphore and is discarded from `in_flight_tasks`;
* `endLoop` — the wall clock passes `duration_sec` and the loop exits;
* `summarize` — `asyncio.gather(*in_flight_tasks)` has returned (no task is
  outstanding) and the summary is computed. -/
inductive OpenLoopStep (cap : ℕ) : OpenLoopState → OpenLoopState → Prop
  | dispatch (s : OpenLoopState) :
      s.loopDone = false → s.outstanding < 4 * cap →
      OpenLoopStep cap s { s with waiting := s.waiting + 1 }
  | acquire (s : OpenLoopState) :
      0 < s.semAvail → 0 < s.waiting →
      OpenLoopStep cap s
        { s with waiting := s.waiting - 1, executing := s.executing + 1,
                 semAvail := s.semAvail - 1 }
  | finish (s : OpenLoopState) :
      0 < s.executing →
      OpenLoopStep cap s
        { s with executing := s.executing - 1, semAvail := s.semAvail + 1 }
  | endLoop (s : OpenLoopState) :
      OpenLoopStep cap s { s with loopDone := true }
  | summarize (s : OpenLoopState) :
      s.loopDone = true → s.outstanding = 0 →
      OpenLoopStep cap s { s with summarized := true }

/-- Initial state of `_open_once`: nothing dispatched, semaphore full. -/
def openLoopInit (cap : ℕ) : OpenLoopState :=
  { loopDone := false, waiting := 0, executing := 0, semAvail := cap,
    summarized := false }

/-- States reachable by an `_open_once` run. -/
inductive OpenLoopReachable (cap : ℕ) : OpenLoopState → Prop
  | init : OpenLoopReachable cap (openLoopInit cap)
  | step {s s' : OpenLoopState} :
      OpenLoopReachable cap s → OpenLoopStep cap s s' → OpenLoopReachable cap s'

/-- The inductive invariant of the open-loop scheduler. -/
def OpenLoopInv (cap : ℕ) (s : OpenLoopState) : Prop :=
  s.executing + s.semAvail = cap ∧
  s.outstanding ≤ 4 * cap ∧
  (s.summarized = true → s.loopDone = true) ∧
  (s.summarized = true → s.outstanding = 0)

theorem openLoopInv_of_reachable {cap : ℕ} {s : OpenLoopState}
    (h : OpenLoopReachable cap s) : OpenLoopInv cap s := by
  induction h with
  | init =>
    refine ⟨?_, ?_, ?_, ?_⟩ <;> simp [openLoopInit, OpenLoopState.outstanding]
  | step _ hstep ih =>
    obtain ⟨ih1, ih2, ih3, ih4⟩ := ih
    cases hstep with
    | dispatch hloop hout =>
      refine ⟨ih1, ?_, ?_, ?_⟩
      · simp only [OpenLoopState.outstanding] at hout ⊢
        omega
      · intro hsum
        have := ih3 hsum
        rw [hloop] at this
        exact absurd this (by simp)
      · intro hsum
        have := ih3 hsum
        rw [hloop] at this
        exact absurd this (by simp)
    | acquire hsem hwait =>
      refine ⟨by simp; omega, ?_, fun hs => ih3 hs, ?_⟩
      · simp only [OpenLoopState.outstanding] at ih2 ⊢
        omega
      · intro hsum
        have h0 := ih4 hsum
        simp only [OpenLoopState.outstanding] at h0 ⊢
        omega
    | finish hex =>
      refine ⟨by simp; omega, ?_, fun hs => ih3 hs, ?_⟩
      · simp only [OpenLoopState.outstanding] at ih2 ⊢
        omega
      · intro hsum
        have h0 := ih4 hsum
        simp only [OpenLoopState.outstanding] at h0 ⊢
        omega
    | endLoop =>
      exact ⟨ih1, ih2, fun _ => rfl, fun hs => ih4 hs⟩
    | summarize hloop hout =>
      exact ⟨ih1, ih2, fun _ => hloop, fun _ => hout⟩

/-- **C9.** In every reachable state of an open-loop run with concurrency
cap `cap`: at most `4 × cap` requests are dispatched-but-not-completed, at
most `cap` requests are executing a network operation simultaneously, and
the summary is computed only once no dispatched request is outstanding. -/
theorem C9_open_loop_bounds {cap : ℕ} {s : OpenLoopState}
    (h : OpenLoopReachable cap s) :
    s.outstanding ≤ 4 * cap ∧ s.executing ≤ cap ∧
    (s.summarized = true → s.outstanding = 0) := by
  obtain ⟨h1, h2, _, h4⟩ := openLoopInv_of_reachable h
  exact ⟨h2, by omega, h4⟩

/-- Concrete instance of `C9_open_loop_bounds`: a state of a cap-2 run
reached by dispatching one request and letting it acquire the semaphore. -/
theorem C9_open_loop_bounds_witness :
    (OpenLoopState.mk false 0 1 1 false).outstanding ≤ 4 * 2 ∧
    (OpenLoopState.mk false 0 1 1 false).executing ≤ 2 ∧
    ((OpenLoopState.mk false 0 1 1 false).summarized = true →
      (OpenLoopState.mk false 0 1 1 false).outstanding = 0) :=
  C9_open_loop_bounds
    (OpenLoopReachable.step
      (OpenLoopReachable.step OpenLoopReachable.init
        (OpenLoopStep.dispatch (openLoopInit 2) rfl (by decide)))
      (OpenLoopStep.acquire { openLoopInit 2 with waiting := 1 } (by decide) (by decide)))

/-- Split a list at the first occurrence of `c`: `some (before, after)`
without the separator, or `none` when `c` does not occur (Python
`str.partition` / `str.split(c, 1)` / `str.find`). -/
def splitOnFirst (c : Char) : List Char → Option (List Char × List Char)
  | [] => none
  | x :: xs =>
    if x = c then some ([], xs)
    else (splitOnFirst c xs).map (fun p => (x :: p.1, p.2))

/-- The suffix after the last occurrence of `c`, or the whole list when `c`
does not occur (Python `str.rpartition(c)[2]`). -/
def afterLast (c : Char) : List Char → List Char
  | [] => []
  | x :: xs => if c ∈ xs then afterLast c xs else if x = c then xs else x :: xs

/-- Split at the first of the netloc delimiters `'/'`, `'?'`, `'#'`
(CPython `_splitnetloc`). -/
def takeUntilDelims : List Char → List Char × List Char
  | [] => ([], [])
  | x :: xs =>
    if x = '/' ∨ x = '?' ∨ x = '#' then ([], x :: xs)
    else
      let p := takeUntilDelims xs
      (x :: p.1, p.2)

/-- Characters allowed in a URL scheme (CPython `scheme_chars`). -/
def schemeChar (c : Char) : Bool := c.isAlphanum || c == '+' || c == '-' || c == '.'

/-- A non-empty candidate scheme starting with a letter and made of scheme
characters. -/
def validScheme : List Char → Bool
  | [] => false
  | b :: rest => b.isAlpha && (b :: rest).all schemeChar

/-- The scheme extraction of CPython `urlsplit`: split at the first `':'`
when the part before it is a valid scheme (then lowercased); otherwise the
URL is left untouched and the scheme is absent. -/
def splitScheme (url : List Char) : Option (List Char) × List Char :=
  match splitOnFirst ':' url with
  | none => (none, url)
  | some (before, after) =>
    if validScheme before then (some (before.map Char.toLower), after) else (none, url)

/-- The netloc extraction of CPython `urlsplit`: when the remainder starts
with `"//"`, the netloc runs until the first `'/'`, `'?'` or `'#'`. -/
def splitNetloc (url : List Char) : List Char × List Char :=
  match url with
  | a :: b :: rest => if a = '/' ∧ b = '/' then takeUntilDelims rest else ([], url)
  | _ => ([], url)

/-- Drop the part after the first `';'` of one path segment. -/
def dropParamsSeg (seg : List Char) : List Char :=
  match splitOnFirst ';' seg with
  | none => seg
  | some (a, _) => a

/-- CPython `urlparse._splitparams`, keeping only the path part: parameters
after the first `';'` of the last `'/'`-separated segment are dropped (the
benchmark code never reads `params`). -/
def splitParams : List Char → List Char
  | [] => []
  | x :: xs =>
    if '/' ∈ x :: xs then
      if '/' ∈ xs then x :: splitParams xs
      else x :: dropParamsSeg xs
    else dropParamsSeg (x :: xs)

/-- CPython `urlsplit` removes tab, carriage-return and line-feed characters
from the URL before parsing. -/
def removeUnsafe (l : List Char) : List Char :=
  l.filter (fun c => !(c == '\t' || c == '\r' || c == '\n'))

/-- The fields of Python's `urlparse` result that `build_http_get` reads
(`params` and `fragment` are dropped; `hostname` and `port` are derived
from `netloc` below, as in CPython). -/
structure ParsedUrl where
  scheme : Option (List Char)
  netloc : List Char
  path : List Char
  query : List Char
deriving DecidableEq, Repr

/-- Drop the fragment after the first `'#'`. -/
def dropFragment (l : List Char) : List Char :=
  match splitOnFirst '#' l with
  | none => l
  | some (a, _) => a

/-- Split off the query at the first `'?'`. -/
def splitQuery (l : List Char) : List Char × List Char :=
  match splitOnFirst '?' l with
  | none => (l, [])
  | some (a, b) => (a, b)

/-- Model of CPython `urllib.parse.urlparse` for the URLs this benchmark
accepts.  Out of scope of the model (none is exercised by the claims):
bracketed IPv6 authorities (`'['`/`']'`, where CPython may raise
`Invalid IPv6 URL`), and non-ASCII input; the general theorems below
carry hypotheses excluding those. -/
def pyUrlparse (url0 : List Char) : ParsedUrl :=
  let url1 := removeUnsafe url0
  let sp := splitScheme url1
  let nl := splitNetloc sp.2
  let pq := splitQuery (dropFragment nl.2)
  { scheme := sp.1, netloc := nl.1, path := splitParams pq.1, query := pq.2 }

/-- The `(host, port-string)` split of a netloc (CPython `_hostinfo`:
the part after the last `'@'`, split at the first `':'`). -/
def hostSplit (netloc : List Char) : List Char × Option (List Char) :=
  let hostinfo := afterLast '@' netloc
  match splitOnFirst ':' hostinfo with
  | none => (hostinfo, none)
  | some (h, p) => (h, some p)

/-- CPython's `.hostname` property: lowercased host, `None` when empty. -/
def pyHostname (netloc : List Char) : Option (List Char) :=
  let h := (hostSplit netloc).1
  if h = [] then none else some (h.map Char.toLower)

/-- The numeric value of a digit string. -/
def digitsToNat (l : List Char) : ℕ :=
  l.foldl (fun acc c => acc * 10 + (c.toNat - 48)) 0

/-- CPython's `.port` property: `none` when the port is absent or empty,
the value when it is a digit string in `0..65535`, and a `ValueError`
(`Except.error`) otherwise.  (The exotic `int(str)` forms — signs,
underscores, surrounding whitespace — are not modelled; no claim exercises
them.) -/
def pyPort (netloc : List Char) : Except Unit (Option ℕ) :=
  match (hostSplit netloc).2 with
  | none => .ok none
  | some [] => .ok none
  | some ds =>
    if ds.all Char.isDigit then
      if digitsToNat ds ≤ 65535 then .ok (some (digitsToNat ds)) else .error ()
    else .error ()

/-- The ways `build_http_get` can raise. -/
inductive TargetError where
  | invalidScheme
  | invalidPort
  | nonAscii
deriving DecidableEq, Repr

/-- Decidable equality for `Except`, used to evaluate the builder on
concrete URLs. -/
instance {e a : Type} [DecidableEq e] [DecidableEq a] : DecidableEq (Except e a) :=
  fun x y =>
    match x, y with
    | .error u, .error v =>
      if h : u = v then isTrue (by rw [h]) else isFalse (fun hc => h (Except.error.inj hc))
    | .ok u, .ok v =>
      if h : u = v then isTrue (by rw [h]) else isFalse (fun hc => h (Except.ok.inj hc))
    | .error _, .ok _ => isFalse Except.noConfusion
    | .ok _, .error _ => isFalse Except.noConfusion

/-- The Target triple returned by `build_http_get`. -/
structure Target where
  host : List Char
  port : ℕ
  request : List Char
deriving DecidableEq, Repr

/-- `"127.0.0.1"`, the fallback host. -/
def defaultHost : List Char := "127.0.0.1".toList

/-- `"http"`. -/
def httpChars : List Char := "http".toList

/-- Carriage-return line-feed. -/
def crlf : List Char := ['\r', '\n']

/-- ASCII test used to model `.encode("ascii")`. -/
def isAsciiChar (c : Char) : Bool := decide (c.toNat < 128)

/-- The rendered request bytes of `build_http_get` (lines 20-25). -/
def requestChars (fullPath hostHeader : List Char) : List Char :=
  "GET ".toList ++ fullPath ++ " HTTP/1.1".toList ++ crlf ++
    ("Host: ".toList ++ hostHeader ++ crlf) ++
    ("Connection: close".toList ++ crlf ++ crlf)

/-- The pure assembly part of `build_http_get` (lines 14-26, given the
already-resolved port): host defaults to `127.0.0.1`, port to 80 (also for
an explicit port 0, which is falsy under Python `or`), path to `"/"`; the
query is appended after `'?'`; the Host header is the netloc as given when
present, the resolved host otherwise.  Python's `parsed_url.port or 80`
treats port 0 as absent. -/
def resolvePort : Option ℕ → ℕ
  | none => 80
  | some 0 => 80
  | some v => v

/-- The request path plus query (`path` defaults to `"/"`). -/
def fullPathOf (p : ParsedUrl) : List Char :=
  let path := if p.path = [] then ['/'] else p.path
  if p.query = [] then path else path ++ '?' :: p.query

/-- The Host header value: the netloc as given when present, the resolved
host otherwise. -/
def hostHeaderOf (p : ParsedUrl) : List Char :=
  if p.netloc = [] then (pyHostname p.netloc).getD defaultHost else p.netloc

def assembleTarget (p : ParsedUrl) (portOpt : Option ℕ) : Target :=
  ⟨(pyHostname p.netloc).getD defaultHost, resolvePort portOpt,
   requestChars (fullPathOf p) (hostHeaderOf p)⟩

/-- `build_http_get` from `bench_core.py` (lines 10-26): parse the URL,
reject a scheme other than plain `http`, resolve the port (which can raise
for a malformed port), assemble the target, and encode the request as
ASCII. -/
def build_http_get (url : List Char) : Except TargetError Target :=
  let p := pyUrlparse url
  if p.scheme.elim false (fun s => decide (s ≠ httpChars)) then .error .invalidScheme
  else
    match pyPort p.netloc with
    | .error _ => .error .invalidPort
    | .ok portOpt =>
      let t := assembleTarget p portOpt
      if t.request.all isAsciiChar then .ok t else .error .nonAscii

/-- The URL has a scheme other than `"http"`. -/
def hasBadScheme (url : List Char) : Prop :=
  ∃ s, (pyUrlparse url).scheme = some s ∧ s ≠ httpChars

/-- The URL's authority has a port component that `int(...)` rejects or
that is out of range. -/
@[reducible]
def hasBadPort (url : List Char) : Prop :=
  pyPort (pyUrlparse url).netloc = .error ()

theorem splitOnFirst_sub {c : Char} {l a b : List Char}
    (h : splitOnFirst c l = some (a, b)) : a.Sublist l ∧ b.Sublist l := by
  induction l generalizing a b with
  | nil => simp [splitOnFirst] at h
  | cons x xs ih =>
    unfold splitOnFirst at h
    split at h
    · obtain ⟨rfl, rfl⟩ := Prod.mk.injEq .. ▸ (Option.some.inj h)
      exact ⟨List.nil_sublist _, List.sublist_cons_self x xs⟩
    · cases hrec : splitOnFirst c xs with
      | none => rw [hrec] at h; simp at h
      | some p =>
        rw [hrec] at h
        simp only [Option.map_some', Option.some.injEq] at h
        obtain ⟨h1, h2⟩ := Prod.mk.injEq .. ▸ h
        obtain ⟨hsa, hsb⟩ := ih hrec
        subst h1
        subst h2
        exact ⟨(by exact hsa.cons₂ x : (x :: p.1).Sublist (x :: xs)), hsb.cons x⟩

theorem afterLast_sub (c : Char) (l : List Char) : (afterLast c l).Sublist l := by
  induction l with
  | nil => exact List.Sublist.refl _
  | cons x xs ih =>
    unfold afterLast
    split
    · exact ih.cons x
    · split
      · exact List.sublist_cons_self x xs
      · exact List.Sublist.refl _

theorem takeUntilDelims_sub (l : List Char) :
    (takeUntilDelims l).1.Sublist l ∧ (takeUntilDelims l).2.Sublist l := by
  induction l with
  | nil => exact ⟨List.Sublist.refl _, List.Sublist.refl _⟩
  | cons x xs ih =>
    unfold takeUntilDelims
    split
    · exact ⟨List.nil_sublist _, List.Sublist.refl _⟩
    · exact ⟨ih.1.cons₂ x, ih.2.cons x⟩

theorem dropParamsSeg_sub (l : List Char) : (dropParamsSeg l).Sublist l := by
  unfold dropParamsSeg
  split
  · exact List.Sublist.refl _
  · rename_i a b h
    exact (splitOnFirst_sub h).1

theorem splitParams_sub (l : List Char) : (splitParams l).Sublist l := by
  induction l with
  | nil => exact List.Sublist.refl _
  | cons x xs ih =>
    unfold splitParams
    split
    · split
      · exact ih.cons₂ x
      · exact (dropParamsSeg_sub xs).cons₂ x
    · exact dropParamsSeg_sub _

theorem removeUnsafe_sub (l : List Char) : (removeUnsafe l).Sublist l :=
  List.filter_sublist l

theorem splitScheme_snd_sub (l : List Char) : (splitScheme l).2.Sublist l := by
  unfold splitScheme
  split
  · exact List.Sublist.refl _
  · rename_i a b h
    split
    · exact (splitOnFirst_sub h).2
    · exact List.Sublist.refl _

theorem splitNetloc_sub (l : List Char) :
    (splitNetloc l).1.Sublist l ∧ (splitNetloc l).2.Sublist l := by
  unfold splitNetloc
  split
  · rename_i a b rest
    split
    · constructor
      · exact ((takeUntilDelims_sub rest).1.cons b).cons a
      · exact ((takeUntilDelims_sub rest).2.cons b).cons a
    · exact ⟨List.nil_sublist _, List.Sublist.refl _⟩
  · exact ⟨List.nil_sublist _, List.Sublist.refl _⟩

theorem dropFragment_sub (l : List Char) : (dropFragment l).Sublist l := by
  unfold dropFragment
  split
  · exact List.Sublist.refl _
  · rename_i a b h
    exact (splitOnFirst_sub h).1

theorem splitQuery_sub (l : List Char) :
    (splitQuery l).1.Sublist l ∧ (splitQuery l).2.Sublist l := by
  unfold splitQuery
  split
  · exact ⟨List.Sublist.refl _, List.nil_sublist _⟩
  · rename_i a b h
    exact ⟨(splitOnFirst_sub h).1, (splitOnFirst_sub h).2⟩

theorem parsedUrl_netloc_sub (url : List Char) : (pyUrlparse url).netloc.Sublist url := by
  show (splitNetloc (splitScheme (removeUnsafe url)).2).1.Sublist url
  exact ((splitNetloc_sub _).1.trans (splitScheme_snd_sub _)).trans (removeUnsafe_sub _)

theorem parsedUrl_path_sub (url : List Char) : (pyUrlparse url).path.Sublist url := by
  show (splitParams (splitQuery (dropFragment
    (splitNetloc (splitScheme (removeUnsafe url)).2).2)).1).Sublist url
  exact ((((splitParams_sub _).trans (splitQuery_sub _).1).trans (dropFragment_sub _)).trans
    ((splitNetloc_sub _).2.trans (splitScheme_snd_sub _))).trans (removeUnsafe_sub _)

theorem parsedUrl_query_sub (url : List Char) : (pyUrlparse url).query.Sublist url := by
  show (splitQuery (dropFragment
    (splitNetloc (splitScheme (removeUnsafe url)).2).2)).2.Sublist url
  exact (((splitQuery_sub _).2.trans (dropFragment_sub _)).trans
    ((splitNetloc_sub _).2.trans (splitScheme_snd_sub _))).trans (removeUnsafe_sub _)

theorem all_of_sublist {p : Char → Bool} {l₁ l₂ : List Char} (hs : l₁.Sublist l₂)
    (h : l₂.all p = true) : l₁.all p = true := by
  rw [List.all_eq_true] at h ⊢
  exact fun x hx => h x (hs.subset hx)

theorem requestChars_ascii {a b : List Char}
    (ha : a.all isAsciiChar = true) (hb : b.all isAsciiChar = true) :
    (requestChars a b).all isAsciiChar = true := by
  simp only [requestChars, List.all_append, ha, hb, Bool.and_true, Bool.true_and]
  decide

theorem fullPathOf_ascii {p : ParsedUrl}
    (hp : p.path.all isAsciiChar = true) (hq : p.query.all isAsciiChar = true) :
    (fullPathOf p).all isAsciiChar = true := by
  have hbase : (if p.path = [] then ['/'] else p.path).all isAsciiChar = true := by
    split
    · decide
    · exact hp
  show (if p.query = [] then (if p.path = [] then ['/'] else p.path)
      else (if p.path = [] then ['/'] else p.path) ++ '?' :: p.query).all isAsciiChar = true
  split
  · exact hbase
  · simp only [List.all_append, hbase, List.all_cons, hq, Bool.and_true, Bool.true_and]
    decide

theorem hostHeaderOf_ascii {p : ParsedUrl}
    (hn : p.netloc.all isAsciiChar = true) :
    (hostHeaderOf p).all isAsciiChar = true := by
  unfold hostHeaderOf
  split
  · rename_i h
    rw [h]
    decide
  · exact hn

theorem assemble_request_ascii (url : List Char) (portOpt : Option ℕ)
    (h : url.all isAsciiChar = true) :
    (assembleTarget (pyUrlparse url) portOpt).request.all isAsciiChar = true := by
  show (requestChars (fullPathOf (pyUrlparse url)) (hostHeaderOf (pyUrlparse url))).all
    isAsciiChar = true
  exact requestChars_ascii
    (fullPathOf_ascii (all_of_sublist (parsedUrl_path_sub url) h)
      (all_of_sublist (parsedUrl_query_sub url) h))
    (hostHeaderOf_ascii (all_of_sublist (parsedUrl_netloc_sub url) h))

theorem schemeFlag_iff (url : List Char) :
    ((pyUrlparse url).scheme.elim false (fun s => decide (s ≠ httpChars)) = true) ↔
      hasBadScheme url := by
  cases h : (pyUrlparse url).scheme with
  | none => simp [Option.elim, hasBadScheme, h]
  | some s => simp [Option.elim, hasBadScheme, h]

/-- The three behaviours of `build_http_get`: a non-`http` scheme is
rejected first; then a malformed port is rejected; otherwise the assembled
target is returned (when its request encodes as ASCII). -/
theorem build_http_get_spec (url : List Char) :
    (hasBadScheme url → build_http_get url = .error .invalidScheme) ∧
    (¬ hasBadScheme url → hasBadPort url → build_http_get url = .error .invalidPort) ∧
    (¬ hasBadScheme url → ∀ portOpt, pyPort (pyUrlparse url).netloc = .ok portOpt →
      (assembleTarget (pyUrlparse url) portOpt).request.all isAsciiChar = true →
      build_http_get url = .ok (assembleTarget (pyUrlparse url) portOpt)) := by
  refine ⟨?_, ?_, ?_⟩
  · intro hbad
    have hb : (pyUrlparse url).scheme.elim false (fun s => decide (s ≠ httpChars)) = true :=
      (schemeFlag_iff url).mpr hbad
    simp only [build_http_get, hb, if_true]
  · intro hgood hport
    have hb : (pyUrlparse url).scheme.elim false (fun s => decide (s ≠ httpChars)) = false := by
      rw [Bool.eq_false_iff]
      exact fun hcon => hgood ((schemeFlag_iff url).mp hcon)
    have hport' : pyPort (pyUrlparse url).netloc = Except.error () := hport
    simp only [build_http_get, hb, Bool.false_eq_true, if_false, hport']
  · intro hgood portOpt hpo hascii
    have hb : (pyUrlparse url).scheme.elim false (fun s => decide (s ≠ httpChars)) = false := by
      rw [Bool.eq_false_iff]
      exact fun hcon => hgood ((schemeFlag_iff url).mp hcon)
    simp only [build_http_get, hb, Bool.false_eq_true, if_false, hpo, hascii, if_true]

/-- Inversion for a successful `build_http_get`. -/
theorem build_ok_inv {url : List Char} {t : Target} (h : build_http_get url = .ok t) :
    ∃ portOpt, pyPort (pyUrlparse url).netloc = .ok portOpt ∧
      t = assembleTarget (pyUrlparse url) portOpt := by
  simp only [build_http_get] at h
  split at h
  · exact Except.noConfusion h
  · split at h
    · exact Except.noConfusion h
    · rename_i portOpt hpo
      split at h
      · exact ⟨portOpt, hpo, (Except.ok.inj h).symm⟩
      · exact Except.noConfusion h

theorem not_hasBadScheme_of_none {url : List Char}
    (h : (pyUrlparse url).scheme = none) : ¬ hasBadScheme url := by
  rintro ⟨s, hs, _⟩
  rw [h] at hs
  exact Option.noConfusion hs

theorem not_hasBadScheme_of_http {url : List Char}
    (h : (pyUrlparse url).scheme = some httpChars) : ¬ hasBadScheme url := by
  rintro ⟨s, hs, hne⟩
  rw [h] at hs
  exact hne (Option.some.inj hs).symm

/-- The spec's round-trip URL. -/
def exampleUrl : List Char := "http://host:8080/p?q=1".toList

/-- The Target built from `exampleUrl`. -/
def exampleTarget : Target :=
  ⟨"host".toList, 8080,
   "GET /p?q=1 HTTP/1.1\r\nHost: host:8080\r\nConnection: close\r\n\r\n".toList⟩

/-- **C7.** Building a Target from `http://host:8080/p?q=1` yields a request
containing `GET /p?q=1 HTTP/1.1` and `Host: host:8080`; in general (for the
URLs in the model's scope) the Host header equals the original authority as
given, the port defaults to 80 when absent and the rendered path defaults to
`/` when path and query are absent. -/
theorem C7_target_round_trip :
    (build_http_get exampleUrl = .ok exampleTarget ∧
      "GET /p?q=1 HTTP/1.1".toList <:+: exampleTarget.request ∧
      "Host: host:8080".toList <:+: exampleTarget.request) ∧
    (∀ url t, '[' ∉ url → ']' ∉ url → build_http_get url = .ok t →
      ((pyUrlparse url).netloc ≠ [] →
        ("Host: ".toList ++ (pyUrlparse url).netloc ++ crlf) <:+: t.request) ∧
      ((hostSplit (pyUrlparse url).netloc).2 = none → t.port = 80) ∧
      ((pyUrlparse url).path = [] → (pyUrlparse url).query = [] →
        "GET / HTTP/1.1".toList <:+: t.request)) := by
  constructor
  · exact ⟨by decide, by decide, by decide⟩
  · intro url t _ _ hok
    obtain ⟨portOpt, hpo, rfl⟩ := build_ok_inv hok
    refine ⟨?_, ?_, ?_⟩
    · intro hnl
      show ("Host: ".toList ++ (pyUrlparse url).netloc ++ crlf) <:+:
        requestChars (fullPathOf (pyUrlparse url)) (hostHeaderOf (pyUrlparse url))
      have hh : hostHeaderOf (pyUrlparse url) = (pyUrlparse url).netloc := by
        unfold hostHeaderOf
        rw [if_neg hnl]
      rw [hh]
      exact ⟨"GET ".toList ++ fullPathOf (pyUrlparse url) ++ " HTTP/1.1".toList ++ crlf,
        "Connection: close".toList ++ crlf ++ crlf,
        by simp [requestChars, List.append_assoc]⟩
    · intro hnone
      have hpn : pyPort (pyUrlparse url).netloc = .ok none := by
        unfold pyPort
        rw [hnone]
      rw [hpn] at hpo
      obtain rfl : (none : Option ℕ) = portOpt := Except.ok.inj hpo
      rfl
    · intro hpath hquery
      show "GET / HTTP/1.1".toList <:+:
        requestChars (fullPathOf (pyUrlparse url)) (hostHeaderOf (pyUrlparse url))
      have hfp : fullPathOf (pyUrlparse url) = ['/'] := by
        simp [fullPathOf, hpath, hquery]
      rw [hfp]
      have hGET : "GET / HTTP/1.1".toList = "GET ".toList ++ ['/'] ++ " HTTP/1.1".toList := by
        decide
      exact ⟨[], crlf ++ ("Host: ".toList ++ hostHeaderOf (pyUrlparse url) ++ crlf) ++
        ("Connection: close".toList ++ crlf ++ crlf),
        by simp [requestChars, hGET, List.append_assoc]⟩

/-- The Target built from `http://a`. -/
def aTarget : Target :=
  ⟨"a".toList, 80, "GET / HTTP/1.1\r\nHost: a\r\nConnection: close\r\n\r\n".toList⟩

/-- Concrete instance of the general part of `C7_target_round_trip` at the
URL `http://a` (empty path, empty query, no port). -/
theorem C7_target_round_trip_witness :
    ("Host: ".toList ++ (pyUrlparse "http://a".toList).netloc ++ crlf) <:+: aTarget.request ∧
    aTarget.port = 80 ∧
    "GET / HTTP/1.1".toList <:+: aTarget.request :=
  let h := C7_target_round_trip.2 "http://a".toList aTarget (by decide) (by decide) (by decide)
  ⟨h.1 (by decide), h.2.1 (by decide), h.2.2 (by decide) (by decide)⟩

/-- **C8 counterexample.** The URL `http://h:x/` has scheme exactly `http`,
yet `build_http_get` fails (with the port `ValueError`, not the scheme
one): it is not the case that every URL with scheme `http` is accepted. -/
theorem C8_counterexample :
    (pyUrlparse "http://h:x/".toList).scheme = some httpChars ∧
    build_http_get "http://h:x/".toList = .error .invalidPort := by
  exact ⟨by decide, by decide⟩

/-- **C8 amended.** For ASCII URLs without bracketed (IPv6) authorities:
`build_http_get` fails exactly when the scheme is present and not `http`,
or the authority carries a malformed/out-of-range port; a non-`http` scheme
always produces the unsupported-scheme error (before any request could be
issued). -/
theorem C8_scheme_and_port_gate (url : List Char)
    (_hbr : '[' ∉ url ∧ ']' ∉ url) (hascii : url.all isAsciiChar = true) :
    ((∃ e, build_http_get url = .error e) ↔ hasBadScheme url ∨ hasBadPort url) ∧
    (hasBadScheme url → build_http_get url = .error .invalidScheme) := by
  obtain ⟨h1, h2, h3⟩ := build_http_get_spec url
  refine ⟨⟨?_, ?_⟩, h1⟩
  · rintro ⟨e, he⟩
    by_cases hs : hasBadScheme url
    · exact Or.inl hs
    · by_cases hp : hasBadPort url
      · exact Or.inr hp
      · exfalso
        cases hpo : pyPort (pyUrlparse url).netloc with
        | error e' => cases e'; exact hp hpo
        | ok portOpt =>
          have hok := h3 hs portOpt hpo (assemble_request_ascii url portOpt hascii)
          rw [hok] at he
          exact Except.noConfusion he
  · rintro (hs | hp)
    · exact ⟨.invalidScheme, h1 hs⟩
    · by_cases hs : hasBadScheme url
      · exact ⟨.invalidScheme, h1 hs⟩
      · exact ⟨.invalidPort, h2 hs hp⟩

/-- Concrete instance of `C8_scheme_and_port_gate` at the round-trip URL. -/
theorem C8_scheme_and_port_gate_witness :
    ((∃ e, build_http_get "http://host:8080/p?q=1".toList = .error e) ↔
      hasBadScheme "http://host:8080/p?q=1".toList ∨
        hasBadPort "http://host:8080/p?q=1".toList) ∧
    (hasBadScheme "http://host:8080/p?q=1".toList →
      build_http_get "http://host:8080/p?q=1".toList = .error .invalidScheme) :=
  C8_scheme_and_port_gate "http://host:8080/p?q=1".toList (by decide) (by decide)

/-- **C10 counterexample.** The URL `ftp:/p` has no hostname component, yet
`build_http_get` fails on it (unsupported scheme): it is not the case that
the builder never fails on hostname-less URLs. -/
theorem C10_counterexample :
    pyHostname (pyUrlparse "ftp:/p".toList).netloc = none ∧
    build_http_get "ftp:/p".toList = .error .invalidScheme := by
  exact ⟨by decide, by decide⟩

/-- **C10 amended.** For every ASCII, bracket-free URL with no hostname
component whose scheme is absent or `http` and whose port component is
well-formed, `build_http_get` does not fail: it returns a Target with host
`127.0.0.1` and, when no port is given, port 80. -/
theorem C10_hostless_defaults (url : List Char)
    (_hbr : '[' ∉ url ∧ ']' ∉ url) (hascii : url.all isAsciiChar = true)
    (hhost : pyHostname (pyUrlparse url).netloc = none)
    (hs : ¬ hasBadScheme url) (hp : ¬ hasBadPort url) :
    ∃ t, build_http_get url = .ok t ∧ t.host = "127.0.0.1".toList ∧
      ((hostSplit (pyUrlparse url).netloc).2 = none → t.port = 80) := by
  obtain ⟨h1, h2, h3⟩ := build_http_get_spec url
  cases hpo : pyPort (pyUrlparse url).netloc with
  | error e => cases e; exact absurd hpo hp
  | ok portOpt =>
    refine ⟨assembleTarget (pyUrlparse url) portOpt,
      h3 hs portOpt hpo (assemble_request_ascii url portOpt hascii), ?_, ?_⟩
    · show (pyHostname (pyUrlparse url).netloc).getD defaultHost = "127.0.0.1".toList
      rw [hhost]
      rfl
    · intro hnone
      have hpn : pyPort (pyUrlparse url).netloc = .ok none := by
        unfold pyPort
        rw [hnone]
      rw [hpn] at hpo
      obtain rfl : (none : Option ℕ) = portOpt := Except.ok.inj hpo
      rfl

/-- Concrete instance of `C10_hostless_defaults` at the bare path `/p`. -/
theorem C10_hostless_defaults_witness :
    ∃ t, build_http_get "/p".toList = .ok t ∧ t.host = "127.0.0.1".toList ∧
      ((hostSplit (pyUrlparse "/p".toList).netloc).2 = none → t.port = 80) :=
  C10_hostless_defaults "/p".toList (by decide) (by decide) (by decide)
    (not_hasBadScheme_of_none (by decide)) (by decide)
